import Mathlib

set_option maxHeartbeats 1000000

namespace SportsForecast

/-!
A shallow embedding of the feature-and-split pipeline of the
sports-probabilistic-forecasting repository
(`sports_forecast/data/clean.py` and
`sports_forecast/features/features_build.py`).

A pandas cell is modelled by `Val`: a finite numeric value (as a
rational), a string, or the missing marker (NaN/NaT/None).  A DataFrame
is modelled by `Table`: an ordered list of named columns; rectangularity
(equal column lengths) is a hypothesis of the theorems that need it.
-/

/-- A pandas cell: a finite numeric value, a string, or missing. -/
inductive Val where
  | num (q : ℚ)
  | str (s : String)
  | missing
deriving DecidableEq, Repr

/-- A record table: an ordered list of named columns. -/
abbrev Table := List (String × List Val)

/-- First association for a key (pandas label lookup `df[name]` takes the
leftmost column with that label). -/
def alookup (l : List (String × α)) (k : String) : Option α :=
  match l with
  | [] => none
  | p :: ps => if p.1 = k then some p.2 else alookup ps k

/-- `name in df.columns`. -/
def hasCol (t : Table) (c : String) : Bool := (alookup t c).isSome

/-- pandas column assignment `df[name] = col`: replaces the column when
the label exists, otherwise appends it on the right. -/
def setCol (t : Table) (c : String) (xs : List Val) : Table :=
  if hasCol t c then t.map (fun p => if p.1 = c then (c, xs) else p)
  else t ++ [(c, xs)]

/-- `df.drop(columns=[name])`: removes every column with the label. -/
def dropCol (t : Table) (c : String) : Table := t.filter (fun p => p.1 ≠ c)

/-- Row count: length of the first column (tables are rectangular). -/
def nrows (t : Table) : ℕ :=
  match t with
  | [] => 0
  | p :: _ => p.2.length

/-- `df.empty`: no columns or no rows. -/
def isEmptyTable (t : Table) : Bool := t.isEmpty || nrows t == 0

/-- `df.iloc[0:0]`: the same columns with zero rows. -/
def emptyLike (t : Table) : Table := t.map (fun p => (p.1, ([] : List Val)))

/-- Keep the elements whose position is marked true (boolean row mask). -/
def maskFilter (mask : List Bool) (xs : List α) : List α :=
  (mask.zip xs).filterMap (fun p => if p.1 then some p.2 else none)

/-- Apply a row mask to every column (pandas `df[mask]`). -/
def tableFilter (mask : List Bool) (t : Table) : Table :=
  t.map (fun p => (p.1, maskFilter mask p.2))

/-- Insert a named partition into a name-sorted list. -/
def insertPart (p : String × α) : List (String × α) → List (String × α)
  | [] => [p]
  | q :: qs => if p.1 ≤ q.1 then p :: q :: qs else q :: insertPart p qs

/-- `sorted(...)` over partition directories by name. -/
def sortParts (l : List (String × α)) : List (String × α) :=
  l.foldr insertPart []

/-! ### Clean stage (`sports_forecast/data/clean.py`) -/

/-- `_apply_column_mapping`: restrict the mapping to the labels actually
present (`rename_dict`), then rename every matching label. -/
def applyColumnMapping (mapping : List (String × String)) (t : Table) :
    Table :=
  let renameDict := mapping.filter (fun p => hasCol t p.1)
  t.map (fun col =>
    match alookup renameDict col.1 with
    | some newName => (newName, col.2)
    | none => col)

/-- Numeric value of a nonempty run of decimal digits. -/
def natOfDigits (cs : List Char) : Option ℕ :=
  if cs ≠ [] ∧ cs.all Char.isDigit then
    some (cs.foldl (fun a c => 10 * a + (c.toNat - 48)) 0)
  else none

/-- Decimal-literal parse modelling `pd.to_numeric` on a string
("2.7", "-13", "+4.25"): the value of `±n.f` (with `k` fraction digits)
is `±(n·10^k + f) / 10^k`; forms beyond plain optionally signed decimal
literals are treated as unparseable. -/
def parseDecimal (s : String) : Option ℚ :=
  let cs := s.toList
  let signBody : Bool × List Char :=
    match cs with
    | '-' :: r => (true, r)
    | '+' :: r => (false, r)
    | r => (false, r)
  let body := signBody.2
  let mag : Option (ℕ × ℕ) :=
    match body.span (fun c => c != '.') with
    | (ip, []) => (natOfDigits ip).map (fun n => (n, 1))
    | (ip, _ :: fp) =>
      if fp.any (fun c => c == '.') then none
      else
        match natOfDigits ip, natOfDigits fp with
        | some n, some f => some (n * 10 ^ fp.length + f, 10 ^ fp.length)
        | _, _ => none
  mag.map (fun p =>
    mkRat (if signBody.1 then -(p.1 : ℤ) else (p.1 : ℤ)) p.2)

/-- `pd.to_numeric(•, errors="coerce")` on one cell: numbers pass
through, strings are parsed as decimal literals, anything unparseable
(and an already-missing cell) becomes missing. -/
def toNumericCell (v : Val) : Option ℚ :=
  match v with
  | .num q => some q
  | .str s => parseDecimal s
  | .missing => none

/-- The float64 → int64 cast of a finite value: truncation toward zero. -/
def truncQ (q : ℚ) : ℤ := Int.sign q.num * (q.num.natAbs / q.den : ℕ)

/-- One numeric column of `_apply_dtype_conversion`: `pd.to_numeric`
with `errors="coerce"`, then for dtype "int" `fillna(0)` and an int64
cast, for dtype "float" a float64 cast (missing stays missing); any
other dtype string leaves the parsed numeric column as is. -/
def applyNumericDtype (dtype : String) (xs : List Val) : List Val :=
  let parsed := xs.map toNumericCell
  if dtype = "int" then
    parsed.map (fun c => Val.num ((truncQ (c.getD 0) : ℤ) : ℚ))
  else
    parsed.map (fun c =>
      match c with
      | some q => Val.num q
      | none => Val.missing)

/-- The numeric section of `clean.dtype_mapping` (column name, dtype
string).  The string and datetime sections are omitted: no claim
depends on them and they change neither row membership nor the numeric
policy under verification. -/
structure DtypeCfg where
  numeric : List (String × String)
deriving DecidableEq

/-- `_apply_dtype_conversion` over a table: each configured numeric
column present in the table is converted in order; absent columns are
skipped. -/
def applyDtypeConversion (dc : DtypeCfg) (t : Table) : Table :=
  dc.numeric.foldl
    (fun acc p =>
      match alookup acc p.1 with
      | none => acc
      | some xs => setCol acc p.1 (applyNumericDtype p.2 xs))
    t

/-- `_validate_required_columns`: true iff no required column is
missing after the mapping. -/
def validateRequiredColumns (t : Table) (req : List String) : Bool :=
  (req.filter (fun c => ! hasCol t c)).isEmpty

/-- Whether a cell is the missing marker (`isna`). -/
def isMissingVal (v : Val) : Bool :=
  match v with
  | .missing => true
  | _ => false

/-- Cell at row `i` of column `c` (missing when out of range). -/
def cellAt (t : Table) (c : String) (i : ℕ) : Val :=
  ((alookup t c).getD []).getD i Val.missing

/-- `df.dropna(subset=cols)`: keeps the rows where every listed column
is non-missing; raises (pandas `KeyError`) when a listed column is
absent from the table. -/
def dropNaRows (cols : List String) (t : Table) : Except String Table :=
  if cols.all (fun c => hasCol t c) then
    .ok (tableFilter
      ((List.range (nrows t)).map
        (fun i => cols.all (fun c => ! isMissingVal (cellAt t c i)))) t)
  else .error "KeyError"

/-- The `clean` section of `conf/data_clean.yaml` as consumed by
`clean.process_tournament`; optional sections are `Option`s, the
list-valued ones use `[]` for "absent or empty" (the code reads them
with `... or []`). -/
structure CleanCfg where
  column_mapping : Option (List (String × String))
  required_columns : List String
  dtype_mapping : Option DtypeCfg
  drop_na_columns : List String
  select_columns : List String
deriving DecidableEq

/-- `clean.process_tournament` on one partition; `none` input stands
for a missing raw file.  Returns `ok none` when the partition is
skipped (missing file, empty table, failed required-column validation,
empty column selection, empty result), `ok (some df)` when an interim
table is written, and `error` on the one uncaught exception path
(`dropna` over an absent configured column). -/
def processTournamentClean (cfg : CleanCfg) (input : Option Table) :
    Except String (Option Table) :=
  match input with
  | none => .ok none
  | some df0 =>
    if isEmptyTable df0 then .ok none else
    let df1 :=
      match cfg.column_mapping with
      | some m => if m.isEmpty then df0 else applyColumnMapping m df0
      | none => df0
    if ¬ cfg.required_columns.isEmpty ∧
        validateRequiredColumns df1 cfg.required_columns = false then
      .ok none
    else
      let df2 :=
        match cfg.dtype_mapping with
        | some dc => applyDtypeConversion dc df1
        | none => df1
      match (if cfg.drop_na_columns.isEmpty then Except.ok df2
             else dropNaRows cfg.drop_na_columns df2) with
      | .error e => .error e
      | .ok df3 =>
        let df4sel : Option Table :=
          if cfg.select_columns.isEmpty then some df3
          else
            let existing := cfg.select_columns.filter (fun c => hasCol df3 c)
            if existing.isEmpty then none
            else some (existing.map (fun c => (c, (alookup df3 c).getD [])))
        match df4sel with
        | none => .ok none
        | some df4 =>
          if isEmptyTable df4 then .ok none else .ok (some df4)

/-- The per-partition loop of `clean.run`: an uncaught exception in one
partition aborts the remaining loop (outputs already written by earlier
partitions are not modelled). -/
def runPartsClean (cfg : CleanCfg) :
    List (String × Option Table) →
    Except String (List (String × Option Table))
  | [] => .ok []
  | p :: ps =>
    match processTournamentClean cfg p.2 with
    | .error e => .error e
    | .ok r =>
      match runPartsClean cfg ps with
      | .error e => .error e
      | .ok rs => .ok ((p.1, r) :: rs)

/-- `clean.run`: abort when the raw root is missing (`none`), otherwise
process the partitions in sorted name order. -/
def runClean (cfg : CleanCfg)
    (root : Option (List (String × Option Table))) :
    Except String (List (String × Option Table)) :=
  match root with
  | none => .error "raw root not found"
  | some ps => runPartsClean cfg (sortParts ps)

/-- The per-partition result of the clean stage when no exception
occurs (`none` = skipped, no output written). -/
def cleanOutcome (cfg : CleanCfg) (d : Option Table) : Option Table :=
  match processTournamentClean cfg d with
  | .ok r => r
  | .error _ => none

/-! ### Feature stage (`sports_forecast/features/features_build.py`) -/

/-- One entry of `features.basic` (`diff` or `total`). -/
structure BasicEntry where
  home_column : String
  away_column : String
  name : String
deriving DecidableEq

/-- The `features.basic` section: the `diff` and `total` slots. -/
structure BasicCfg where
  diff : Option BasicEntry
  total : Option BasicEntry
deriving DecidableEq

/-- One entry of `features.lag` (`diff` or `total`). -/
structure LagEntry where
  source_column : String
  new_column : String
  periods : ℤ
deriving DecidableEq

/-- The `features.lag` section: the `diff` and `total` slots. -/
structure LagCfg where
  diff : Option LagEntry
  total : Option LagEntry
deriving DecidableEq

/-- The `features.target` section. -/
structure TargetSpec where
  name : String
  home_column : String
  away_column : String
deriving DecidableEq

/-- The `split` section. -/
structure SplitSpec where
  status_column : String
  train_status : String
  inference_status : String
  drop_statuses : List String
deriving DecidableEq

/-- The configuration consumed by `features_build.process_tournament`
(the `features` and `split` sections flattened into one record). -/
structure FeaturesCfg where
  basic : Option BasicCfg
  lag : Option LagCfg
  target : Option TargetSpec
  meta_columns : List String
  final_columns : List String
  split : Option SplitSpec
deriving DecidableEq

/-- pandas elementwise subtraction of two cells; arithmetic with a
missing operand is missing (NaN propagates).  Non-numeric operands are
outside every claim and modelled as missing. -/
def valSub (x y : Val) : Val :=
  match x, y with
  | .num a, .num b => .num (a - b)
  | _, _ => .missing

/-- pandas elementwise addition of two cells (see `valSub`). -/
def valAdd (x y : Val) : Val :=
  match x, y with
  | .num a, .num b => .num (a + b)
  | _, _ => .missing

/-- pandas elementwise `>` between two cells: true only for two numbers
or two strings in order; any comparison against a missing value is
false. -/
def valGT (x y : Val) : Bool :=
  match x, y with
  | .num a, .num b => decide (b < a)
  | .str a, .str b => decide (b < a)
  | _, _ => false

/-- pandas `==` between a cell and a configured string literal: equal
strings only; a missing cell never equals anything. -/
def valEqStr (v : Val) (s : String) : Bool :=
  match v with
  | .str t => t == s
  | _ => false

/-- One cell of `(df[home] > df[away]).astype(int)`. -/
def targetCell (x y : Val) : Val := .num (if valGT x y then 1 else 0)

/-- One basic-feature entry: computed only when both source columns are
present, otherwise the table is unchanged. -/
def addBasicEntry (op : Val → Val → Val) (e : BasicEntry) (t : Table) :
    Table :=
  match alookup t e.home_column, alookup t e.away_column with
  | some h, some a => setCol t e.name (List.zipWith op h a)
  | _, _ => t

/-- `_add_basic_features`: difference then sum, each skipped when its
config slot is absent or a source column is missing. -/
def addBasicFeatures (b : Option BasicCfg) (t : Table) : Table :=
  match b with
  | none => t
  | some bc =>
    let t1 :=
      match bc.diff with
      | some e => addBasicEntry valSub e t
      | none => t
    match bc.total with
    | some e => addBasicEntry valAdd e t1
    | none => t1

/-- `Series.shift(p)` within the current row order: row `i` takes the
source value at row `i - p`; rows whose source index falls outside the
column become missing. -/
def shiftList (p : ℤ) (xs : List Val) : List Val :=
  (List.range xs.length).map
    (fun (i : ℕ) =>
      if (i : ℤ) < p then Val.missing
      else xs.getD ((i : ℤ) - p).toNat Val.missing)

/-- One lag entry: skipped when the source column is absent. -/
def addLagEntry (e : LagEntry) (t : Table) : Table :=
  match alookup t e.source_column with
  | none => t
  | some xs => setCol t e.new_column (shiftList e.periods xs)

/-- `_add_lag_features`: the lag of the diff feature, then of the total
feature; each skipped when its config slot or its source column is
absent. -/
def addLagFeatures (l : Option LagCfg) (t : Table) : Table :=
  match l with
  | none => t
  | some lc =>
    let t1 :=
      match lc.diff with
      | some e => addLagEntry e t
      | none => t
    match lc.total with
    | some e => addLagEntry e t1
    | none => t1

/-- `_add_target_column`: adds the binary home-win target when both
source columns exist, otherwise returns the table unchanged. -/
def addTargetColumn (sp? : Option TargetSpec) (t : Table) : Table :=
  match sp? with
  | none => t
  | some sp =>
    match alookup t sp.home_column, alookup t sp.away_column with
    | some h, some a => setCol t sp.name (List.zipWith targetCell h a)
    | _, _ => t

/-- `_drop_target_for_inference`: with a configured target spec, drop
the target column when present. -/
def dropTargetForInference (sp? : Option TargetSpec) (t : Table) : Table :=
  match sp? with
  | none => t
  | some sp => if hasCol t sp.name then dropCol t sp.name else t

/-- `_select_final_columns`: meta + feature names, plus the target name
for the train side; keeps the ones present, in order; when none is
present the input table is returned unchanged. -/
def selectFinalColumns (cfg : FeaturesCfg) (includeTarget : Bool)
    (t : Table) : Table :=
  let cols := cfg.meta_columns ++ cfg.final_columns ++
    (if includeTarget then
       match cfg.target with
       | some sp => [sp.name]
       | none => []
     else [])
  let available := cols.filter (fun c => hasCol t c)
  if available.isEmpty then t
  else available.map (fun c => (c, (alookup t c).getD []))

/-- Membership of a cell's status in the configured discard set
(`df[status_col].isin(drop_statuses)`). -/
def inDropSet (drops : List String) (v : Val) : Bool :=
  drops.any (fun s => valEqStr v s)

/-- `_split_by_status`: with no split spec everything goes to train and
inference is empty; with the status column absent both outputs are
empty; otherwise the rows whose status lies in the discard set are
dropped first, then the train and inference outputs keep the rows whose
status equals the respective literal. -/
def splitByStatus (sp? : Option SplitSpec) (t : Table) : Table × Table :=
  match sp? with
  | none => (t, emptyLike t)
  | some sp =>
    match alookup t sp.status_column with
    | none => (emptyLike t, emptyLike t)
    | some st =>
      let t1 :=
        if sp.drop_statuses.isEmpty then t
        else tableFilter (st.map (fun v => ! inDropSet sp.drop_statuses v)) t
      let st1 := (alookup t1 sp.status_column).getD []
      (tableFilter (st1.map (fun v => valEqStr v sp.train_status)) t1,
       tableFilter (st1.map (fun v => valEqStr v sp.inference_status)) t1)

/-- The four destinations of a row under the split. -/
inductive RowClass where
  | discarded
  | train
  | inference
  | neither
deriving DecidableEq, Repr

/-- The split's per-row decision chain in priority order: discard set
first, then the train literal, then the inference literal, then
neither. -/
def classify (sp : SplitSpec) (v : Val) : RowClass :=
  if inDropSet sp.drop_statuses v then .discarded
  else if valEqStr v sp.train_status then .train
  else if valEqStr v sp.inference_status then .inference
  else .neither

/-- `features_build.process_tournament`'s transform chain on a loaded
table: basic features, lag features, status split, target on the train
side only, target dropped from the inference side, final column
selection on each side. -/
def featuresProcess (cfg : FeaturesCfg) (t : Table) : Table × Table :=
  let df := addLagFeatures cfg.lag (addBasicFeatures cfg.basic t)
  let pr := splitByStatus cfg.split df
  let tr := addTargetColumn cfg.target pr.1
  let inf := dropTargetForInference cfg.target pr.2
  (selectFinalColumns cfg true tr, selectFinalColumns cfg false inf)

/-- `features_build.process_tournament` including the skip guards
(`none` input = missing interim file; empty table = skip). -/
def featuresPartition (cfg : FeaturesCfg) (input : Option Table) :
    Option (Table × Table) :=
  match input with
  | none => none
  | some df => if isEmptyTable df then none else some (featuresProcess cfg df)

/-- `features_build.run`: abort when the interim root is missing,
otherwise process the partitions in sorted name order. -/
def runFeatures (cfg : FeaturesCfg)
    (root : Option (List (String × Option Table))) :
    Except String (List (String × Option (Table × Table))) :=
  match root with
  | none => .error "interim root not found"
  | some ps =>
    .ok ((sortParts ps).map (fun p => (p.1, featuresPartition cfg p.2)))

/-! ### Helper lemmas -/

theorem maskFilter_nil (xs : List α) : maskFilter [] xs = [] := rfl

theorem maskFilter_nil_right (m : List Bool) :
    maskFilter m ([] : List α) = [] := by
  cases m <;> rfl

theorem maskFilter_cons (b : Bool) (m : List Bool) (x : α) (xs : List α) :
    maskFilter (b :: m) (x :: xs)
      = if b then x :: maskFilter m xs else maskFilter m xs := by
  cases b <;> simp [maskFilter, List.zip_cons_cons, List.filterMap_cons]

theorem alookup_tableFilter (m : List Bool) (t : Table) (c : String) :
    alookup (tableFilter m t) c = (alookup t c).map (maskFilter m) := by
  induction t with
  | nil => rfl
  | cons p ps ih =>
    by_cases h : p.1 = c
    · simp [tableFilter, alookup, h]
    · simpa [tableFilter, alookup, h] using ih

theorem maskFilter_compose (q p : Val → Bool) :
    ∀ (st : List Val) (xs : List α), st.length = xs.length →
    maskFilter ((maskFilter (st.map q) st).map p) (maskFilter (st.map q) xs)
      = maskFilter (st.map (fun v => q v && p v)) xs := by
  intro st
  induction st with
  | nil =>
    intro xs h
    cases xs
    · rfl
    · simp at h
  | cons v st ih =>
    intro xs h
    cases xs with
    | nil => simp at h
    | cons x xs =>
      have hlen : st.length = xs.length := by simpa using h
      cases hq : q v
      · simp [maskFilter_cons, hq, ih xs hlen]
      · cases hp : p v
        · simp [maskFilter_cons, hq, hp, ih xs hlen]
        · simp [maskFilter_cons, hq, hp, ih xs hlen]

theorem alookup_eq_none (l : List (String × α)) (c : String)
    (h : ∀ p ∈ l, p.1 ≠ c) : alookup l c = none := by
  induction l with
  | nil => rfl
  | cons p ps ih =>
    have h1 : p.1 ≠ c := h p (by simp)
    simp only [alookup, if_neg h1]
    exact ih (fun r hr => h r (by simp [hr]))

theorem alookup_append_left (l1 l2 : List (String × α)) (c : String)
    (h : alookup l1 c = none) : alookup (l1 ++ l2) c = alookup l2 c := by
  induction l1 with
  | nil => rfl
  | cons p ps ih =>
    by_cases h1 : p.1 = c
    · simp [alookup, h1] at h
    · simp only [List.cons_append, alookup, if_neg h1] at h ⊢
      exact ih h

theorem alookup_setCol (t : Table) (c : String) (xs : List Val) :
    alookup (setCol t c xs) c = some xs := by
  unfold setCol
  by_cases h : hasCol t c
  · rw [if_pos h]
    unfold hasCol at h
    induction t with
    | nil => simp [alookup] at h
    | cons p ps ih =>
      by_cases h1 : p.1 = c
      · simp [alookup, h1]
      · simp only [alookup, if_neg h1] at h
        simpa [alookup, h1] using ih h
  · rw [if_neg h]
    unfold hasCol at h
    have h2 : alookup t c = none := by
      cases hc : alookup t c
      · rfl
      · rw [hc] at h; simp at h
    rw [alookup_append_left t _ c h2]
    simp [alookup]

theorem alookup_dropCol (t : Table) (c : String) :
    alookup (dropCol t c) c = none := by
  apply alookup_eq_none
  intro p hp
  have h2 := (List.mem_filter.mp hp).2
  simpa using h2

theorem mem_zipWith {f : α → β → γ} :
    ∀ {l1 : List α} {l2 : List β} {v : γ},
    v ∈ List.zipWith f l1 l2 → ∃ a b, v = f a b := by
  intro l1
  induction l1 with
  | nil => intro l2 v h; simp at h
  | cons a l1 ih =>
    intro l2 v h
    cases l2 with
    | nil => simp at h
    | cons b l2 =>
      rcases List.mem_cons.mp h with h1 | h1
      · exact ⟨a, b, h1⟩
      · exact ih h1

theorem shiftList_getElem_ge (k : ℕ) (xs : List Val) (i : ℕ)
    (hi : i < xs.length) (hk : k ≤ i) :
    (shiftList (k : ℤ) xs)[i]? = xs[i - k]? := by
  unfold shiftList
  rw [List.getElem?_map, List.getElem?_range hi]
  have h1 : ¬ ((i : ℤ) < (k : ℤ)) := by exact_mod_cast not_lt.mpr hk
  have h2 : ((i : ℤ) - (k : ℤ)).toNat = i - k := by omega
  have h3 : i - k < xs.length := by omega
  rw [Option.map_some', if_neg h1, h2, List.getD_eq_getElem?_getD,
    List.getElem?_eq_getElem h3]
  rfl

theorem shiftList_getElem_lt (k : ℕ) (xs : List Val) (i : ℕ)
    (hi : i < xs.length) (hk : i < k) :
    (shiftList (k : ℤ) xs)[i]? = some Val.missing := by
  unfold shiftList
  rw [List.getElem?_map, List.getElem?_range hi]
  have h1 : (i : ℤ) < (k : ℤ) := by exact_mod_cast hk
  rw [Option.map_some', if_pos h1]

theorem hasCol_dropTarget (sp : TargetSpec) (t : Table) :
    hasCol (dropTargetForInference (some sp) t) sp.name = false := by
  simp only [dropTargetForInference]
  by_cases h : hasCol t sp.name
  · rw [if_pos h]
    unfold hasCol
    rw [alookup_dropCol]
    rfl
  · rw [if_neg h]
    simpa using h

theorem hasCol_selectAux (cols : List String) (t : Table) (n : String)
    (h : hasCol t n = false) :
    hasCol
      (if (cols.filter (fun c => hasCol t c)).isEmpty then t
       else (cols.filter (fun c => hasCol t c)).map
         (fun c => (c, (alookup t c).getD []))) n = false := by
  split
  · exact h
  · unfold hasCol
    rw [alookup_eq_none]
    · rfl
    · intro p hp
      rcases List.mem_map.mp hp with ⟨c, hc, hpc⟩
      have h2 : hasCol t c = true := by
        have := (List.mem_filter.mp hc).2
        simpa using this
      intro hcn
      rw [← hpc] at hcn
      simp only at hcn
      rw [hcn] at h2
      rw [h2] at h
      exact Bool.true_eq_false.mp h

theorem hasCol_selectFinal_of_not (cfg : FeaturesCfg) (b : Bool)
    (t : Table) (n : String) (h : hasCol t n = false) :
    hasCol (selectFinalColumns cfg b t) n = false :=
  hasCol_selectAux
    (cfg.meta_columns ++ cfg.final_columns ++
      (if b then
         match cfg.target with
         | some sp => [sp.name]
         | none => []
       else [])) t n h

theorem runPartsClean_ok (cfg : CleanCfg) :
    ∀ ps : List (String × Option Table),
    (∀ p ∈ ps, ∃ r, processTournamentClean cfg p.2 = .ok r) →
    runPartsClean cfg ps = .ok (ps.map (fun p => (p.1, cleanOutcome cfg p.2))) := by
  intro ps
  induction ps with
  | nil => intro _; rfl
  | cons p ps ih =>
    intro h
    rcases h p (by simp) with ⟨r, hr⟩
    have hrest := ih (fun q hq => h q (by simp [hq]))
    simp only [runPartsClean, hr, hrest, List.map_cons]
    simp [cleanOutcome, hr]


theorem truncQ_eq_floor (q : ℚ) (h : 0 ≤ q) : truncQ q = ⌊q⌋ := by
  have hn : 0 ≤ q.num := Rat.num_nonneg.mpr h
  rw [Rat.floor_def, truncQ]
  rcases lt_or_eq_of_le hn with hp | hz
  · rw [Int.sign_eq_one_iff_pos.mpr hp, Int.natCast_div, one_mul]
    rw [Int.natAbs_of_nonneg hn]
  · rw [← hz]
    simp

theorem truncQ_neg (q : ℚ) : truncQ (-q) = - truncQ q := by
  rw [truncQ, truncQ, Rat.neg_den, Rat.num_neg_eq_neg_num, Int.sign_neg,
    Int.natAbs_neg]
  ring

theorem truncQ_nonneg_bounds (q : ℚ) (h : 0 ≤ q) :
    (truncQ q : ℚ) ≤ q ∧ q < truncQ q + 1 := by
  rw [truncQ_eq_floor q h]
  exact ⟨Int.floor_le q, Int.lt_floor_add_one q⟩

theorem truncQ_nonpos_bounds (q : ℚ) (h : q ≤ 0) :
    q ≤ (truncQ q : ℚ) ∧ (truncQ q : ℚ) < q + 1 := by
  have h2 := truncQ_nonneg_bounds (-q) (by linarith)
  rw [truncQ_neg] at h2
  push_cast at h2
  constructor <;> linarith [h2.1, h2.2]

theorem applyNumericDtype_getElem (dtype : String) (xs : List Val) (i : ℕ)
    (hi : i < xs.length) :
    (applyNumericDtype dtype xs)[i]? = some (
      if dtype = "int" then
        Val.num ((truncQ ((toNumericCell xs[i]).getD 0) : ℤ) : ℚ)
      else
        match toNumericCell xs[i] with
        | some q => Val.num q
        | none => Val.missing) := by
  by_cases hd : dtype = "int"
  · simp [applyNumericDtype, hd, List.getElem?_map, List.getElem?_eq_getElem hi]
  · simp [applyNumericDtype, hd, List.getElem?_map, List.getElem?_eq_getElem hi]

theorem getD_eq_getElem (xs : List Val) (i : ℕ) (hi : i < xs.length) :
    xs.getD i Val.missing = xs[i] := by
  rw [List.getD_eq_getElem?_getD, List.getElem?_eq_getElem hi]
  rfl

theorem truncQ_zero : truncQ 0 = 0 := by decide

/-- C4: after type coercion of a column, an "int"-typed target leaves
no missing values — every output cell is an integer value, and a cell
whose input did not parse as a number has become 0 — while a
"float"-typed target leaves a missing value at exactly the positions
whose input cell did not parse (an already-missing input counts as
non-parseable, as in `pd.to_numeric(•, errors="coerce")`). -/
theorem coercion_int_total_float_preserves (xs : List Val) :
    (∀ i, i < xs.length →
      ∃ z : ℤ, (applyNumericDtype "int" xs)[i]? = some (Val.num (z : ℚ)))
    ∧ (∀ i, i < xs.length → toNumericCell (xs.getD i Val.missing) = none →
        (applyNumericDtype "int" xs)[i]? = some (Val.num 0))
    ∧ (∀ i, i < xs.length →
        ((applyNumericDtype "float" xs)[i]? = some Val.missing ↔
          toNumericCell (xs.getD i Val.missing) = none)) := by
  refine ⟨?_, ?_, ?_⟩
  · intro i hi
    rw [applyNumericDtype_getElem "int" xs i hi, if_pos rfl]
    exact ⟨_, rfl⟩
  · intro i hi hnone
    rw [getD_eq_getElem xs i hi] at hnone
    rw [applyNumericDtype_getElem "int" xs i hi, if_pos rfl, hnone]
    simp only [Option.getD_none, truncQ_zero]
    norm_num
  · intro i hi
    rw [getD_eq_getElem xs i hi]
    rw [applyNumericDtype_getElem "float" xs i hi, if_neg (by decide)]
    cases h : toNumericCell xs[i]
    · simp
    · simp

/-- C4 witness: the unparseable string "abc" becomes 0 under an int
target and stays missing under a float target. -/
theorem coercion_int_total_float_preserves_witness :
    (applyNumericDtype "int" [Val.str "abc"])[0]? = some (Val.num 0)
    ∧ ((applyNumericDtype "float" [Val.str "abc"])[0]? = some Val.missing ↔
        toNumericCell (([Val.str "abc"] : List Val).getD 0 Val.missing) = none) :=
  ⟨(coercion_int_total_float_preserves [Val.str "abc"]).2.1 0 (by decide) (by decide),
   (coercion_int_total_float_preserves [Val.str "abc"]).2.2 0 (by decide)⟩

/-- C10: a parseable non-integer value under an "int" target is not
rejected and not rounded: the output cell is the parsed value truncated
toward zero (`truncQ`), which is bounded by the value on the zero side
from both directions; concretely "2.7" becomes 2 and "-2.7" becomes
-2. -/
theorem int_cast_truncates_toward_zero :
    (∀ (xs : List Val) (i : ℕ) (q : ℚ), i < xs.length →
        toNumericCell (xs.getD i Val.missing) = some q →
        (applyNumericDtype "int" xs)[i]? = some (Val.num ((truncQ q : ℤ) : ℚ)))
    ∧ (∀ q : ℚ, 0 ≤ q → ((truncQ q : ℚ) ≤ q ∧ q < truncQ q + 1))
    ∧ (∀ q : ℚ, q ≤ 0 → (q ≤ (truncQ q : ℚ) ∧ (truncQ q : ℚ) < q + 1))
    ∧ applyNumericDtype "int" [Val.str "2.7", Val.str "-2.7"]
        = [Val.num 2, Val.num (-2)] := by
  refine ⟨?_, truncQ_nonneg_bounds, truncQ_nonpos_bounds, by decide⟩
  intro xs i q hi hq
  rw [getD_eq_getElem xs i hi] at hq
  rw [applyNumericDtype_getElem "int" xs i hi, if_pos rfl, hq]
  rfl

/-- C10 witness: "2.7" parses to 27/10 and the int cast yields its
truncation. -/
theorem int_cast_truncates_toward_zero_witness :
    (applyNumericDtype "int" [Val.str "2.7"])[0]?
      = some (Val.num ((truncQ (mkRat 27 10) : ℤ) : ℚ)) :=
  int_cast_truncates_toward_zero.1 [Val.str "2.7"] 0 (mkRat 27 10)
    (by decide) (by decide)

def lagEntry0 : LagEntry := ⟨"src", "src_lag1", 1⟩

def lagTable0 : Table := [("src", [Val.num 10, Val.num 20])]

/-- C3: for a configured lag entry with a non-negative shift count `k`
whose source column is present, the produced lag column is the source
column shifted by `k` within the table's current row order: row `i`
equals source row `i - k` for `i ≥ k` and is missing for `i < k`
(stated for the entry in either the diff or the total slot; the shift
is computed per table, i.e. per partition). -/
theorem lag_shift_correct (e : LagEntry) (t : Table) (xs : List Val) (k : ℕ)
    (hsrc : alookup t e.source_column = some xs)
    (hper : e.periods = (k : ℤ)) :
    alookup (addLagFeatures (some ⟨some e, none⟩) t) e.new_column
        = some (shiftList (k : ℤ) xs)
    ∧ alookup (addLagFeatures (some ⟨none, some e⟩) t) e.new_column
        = some (shiftList (k : ℤ) xs)
    ∧ (∀ i, i < xs.length → k ≤ i → (shiftList (k : ℤ) xs)[i]? = xs[i - k]?)
    ∧ (∀ i, i < xs.length → i < k →
        (shiftList (k : ℤ) xs)[i]? = some Val.missing) := by
  refine ⟨?_, ?_, ?_, ?_⟩
  · simp only [addLagFeatures, addLagEntry, hsrc, hper]
    exact alookup_setCol t e.new_column (shiftList (k : ℤ) xs)
  · simp only [addLagFeatures, addLagEntry, hsrc, hper]
    exact alookup_setCol t e.new_column (shiftList (k : ℤ) xs)
  · intro i hi hk
    exact shiftList_getElem_ge k xs i hi hk
  · intro i hi hk
    exact shiftList_getElem_lt k xs i hi hk

/-- C3 witness: a lag-1 entry on a two-row column. -/
theorem lag_shift_correct_witness :
    alookup (addLagFeatures (some ⟨some lagEntry0, none⟩) lagTable0)
        lagEntry0.new_column = some (shiftList ((1 : ℕ) : ℤ) [Val.num 10, Val.num 20])
    ∧ (shiftList ((1 : ℕ) : ℤ) [Val.num 10, Val.num 20])[1]?
        = ([Val.num 10, Val.num 20] : List Val)[1 - 1]?
    ∧ (shiftList ((1 : ℕ) : ℤ) [Val.num 10, Val.num 20])[0]? = some Val.missing := by
  have h := lag_shift_correct lagEntry0 lagTable0 [Val.num 10, Val.num 20] 1
    (by decide) (by decide)
  exact ⟨h.1, h.2.2.1 1 (by decide) (by decide), h.2.2.2 0 (by decide) (by decide)⟩

/-- C2: with a configured target spec whose home and away columns both
exist in the training subset, the added target column is exactly
`(home > away).astype(int)` — pointwise 1 when home > away and 0
otherwise, hence strictly binary; the pipeline applies the target
deriver to the train side only, and the inference output never
contains the target column name. -/
theorem target_binary_train_only (cfg : FeaturesCfg) (sp : TargetSpec)
    (t tr : Table) (h a : List Val)
    (htg : cfg.target = some sp)
    (hh : alookup tr sp.home_column = some h)
    (ha : alookup tr sp.away_column = some a) :
    alookup (addTargetColumn (some sp) tr) sp.name
        = some (List.zipWith targetCell h a)
    ∧ (∀ (i : ℕ) (x y : Val), h[i]? = some x → a[i]? = some y →
        (List.zipWith targetCell h a)[i]?
          = some (Val.num (if valGT x y then 1 else 0)))
    ∧ (∀ v ∈ List.zipWith targetCell h a, v = Val.num 0 ∨ v = Val.num 1)
    ∧ (featuresProcess cfg t).1
        = selectFinalColumns cfg true (addTargetColumn cfg.target
            (splitByStatus cfg.split
              (addLagFeatures cfg.lag (addBasicFeatures cfg.basic t))).1)
    ∧ hasCol (featuresProcess cfg t).2 sp.name = false := by
  refine ⟨?_, ?_, ?_, rfl, ?_⟩
  · simp only [addTargetColumn, hh, ha]
    exact alookup_setCol tr sp.name (List.zipWith targetCell h a)
  · intro i x y hx hy
    rw [List.getElem?_zipWith', hx, hy]
    rfl
  · intro v hv
    rcases mem_zipWith hv with ⟨x, y, rfl⟩
    unfold targetCell
    by_cases hgt : valGT x y
    · right; rw [if_pos hgt]
    · left; rw [if_neg hgt]
  · show hasCol (selectFinalColumns cfg false
      (dropTargetForInference cfg.target _)) sp.name = false
    rw [htg]
    exact hasCol_selectFinal_of_not cfg false _ sp.name (hasCol_dropTarget sp _)

/-- C9: a training row whose home or away cell is missing gets target
0 (the NaN comparison is false), and the target column never contains
a missing value. -/
theorem target_missing_treated_false (sp : TargetSpec) (tr : Table)
    (h a : List Val)
    (hh : alookup tr sp.home_column = some h)
    (ha : alookup tr sp.away_column = some a) :
    alookup (addTargetColumn (some sp) tr) sp.name
        = some (List.zipWith targetCell h a)
    ∧ (∀ (i : ℕ) (x y : Val), h[i]? = some x → a[i]? = some y →
        (x = Val.missing ∨ y = Val.missing) →
        (List.zipWith targetCell h a)[i]? = some (Val.num 0))
    ∧ (∀ v ∈ List.zipWith targetCell h a, v ≠ Val.missing) := by
  refine ⟨?_, ?_, ?_⟩
  · simp only [addTargetColumn, hh, ha]
    exact alookup_setCol tr sp.name (List.zipWith targetCell h a)
  · intro i x y hx hy hm
    rw [List.getElem?_zipWith', hx, hy]
    have hgt : valGT x y = false := by
      rcases hm with rfl | rfl
      · rfl
      · cases x <;> rfl
    simp [targetCell, hgt]
  · intro v hv
    rcases mem_zipWith hv with ⟨x, y, rfl⟩
    unfold targetCell
    by_cases hgt : valGT x y <;> simp [hgt]


def tgtSpec0 : TargetSpec := ⟨"target", "hp", "ap"⟩

def tgtTable0 : Table := [("hp", [Val.num 2, Val.missing]), ("ap", [Val.num 1, Val.num 3])]

def featCfg0 : FeaturesCfg := ⟨none, none, some tgtSpec0, [], [], none⟩

/-- C2 witness: a concrete two-row training table. -/
theorem target_binary_train_only_witness :
    alookup (addTargetColumn (some tgtSpec0) tgtTable0) tgtSpec0.name
        = some (List.zipWith targetCell [Val.num 2, Val.missing]
            [Val.num 1, Val.num 3])
    ∧ (List.zipWith targetCell [Val.num 2, Val.missing]
        [Val.num 1, Val.num 3])[0]?
        = some (Val.num (if valGT (Val.num 2) (Val.num 1) then 1 else 0))
    ∧ hasCol (featuresProcess featCfg0 tgtTable0).2 tgtSpec0.name = false := by
  have h := target_binary_train_only featCfg0 tgtSpec0 tgtTable0 tgtTable0
    [Val.num 2, Val.missing] [Val.num 1, Val.num 3] rfl (by decide) (by decide)
  exact ⟨h.1, h.2.1 0 (Val.num 2) (Val.num 1) (by decide) (by decide), h.2.2.2.2⟩

/-- C9 witness: row 1 has a missing home cell and gets target 0. -/
theorem target_missing_treated_false_witness :
    alookup (addTargetColumn (some tgtSpec0) tgtTable0) tgtSpec0.name
        = some (List.zipWith targetCell [Val.num 2, Val.missing]
            [Val.num 1, Val.num 3])
    ∧ (List.zipWith targetCell [Val.num 2, Val.missing]
        [Val.num 1, Val.num 3])[1]? = some (Val.num 0) := by
  have h := target_missing_treated_false tgtSpec0 tgtTable0
    [Val.num 2, Val.missing] [Val.num 1, Val.num 3] (by decide) (by decide)
  exact ⟨h.1, h.2.1 1 Val.missing (Val.num 3) (by decide) (by decide) (Or.inl rfl)⟩

theorem valEqStr_unique {v : Val} {s1 s2 : String}
    (h1 : valEqStr v s1 = true) (h2 : valEqStr v s2 = true) : s1 = s2 := by
  cases v with
  | str t =>
    simp [valEqStr] at h1 h2
    rw [← h1, ← h2]
  | num q => simp [valEqStr] at h1
  | missing => simp [valEqStr] at h1

theorem classify_train_mask (sp : SplitSpec) (v : Val) :
    (classify sp v == RowClass.train)
      = (! inDropSet sp.drop_statuses v && valEqStr v sp.train_status) := by
  unfold classify
  by_cases hd : inDropSet sp.drop_statuses v
  · simp [hd]
  · by_cases ht : valEqStr v sp.train_status
    · simp [hd, ht]
    · by_cases hi : valEqStr v sp.inference_status <;> simp [hd, ht, hi]

theorem classify_inference_mask (sp : SplitSpec) (v : Val)
    (hne : sp.train_status ≠ sp.inference_status) :
    (classify sp v == RowClass.inference)
      = (! inDropSet sp.drop_statuses v && valEqStr v sp.inference_status) := by
  unfold classify
  by_cases hd : inDropSet sp.drop_statuses v
  · simp [hd]
  · by_cases ht : valEqStr v sp.train_status
    · have hi : valEqStr v sp.inference_status = false := by
        cases h2 : valEqStr v sp.inference_status
        · rfl
        · exact absurd (valEqStr_unique ht h2) hne
      simp [hd, ht, hi]
    · by_cases hi : valEqStr v sp.inference_status <;> simp [hd, ht, hi]

theorem tableFilter_tableFilter (m2 m1 : List Bool) (t : Table) :
    tableFilter m2 (tableFilter m1 t)
      = t.map (fun p => (p.1, maskFilter m2 (maskFilter m1 p.2))) := by
  unfold tableFilter
  rw [List.map_map]
  rfl

/-- C1 (amended): provided the configured train and inference literals
are distinct, the split classifies each surviving row by the priority
chain `classify` (discard set first, then the train literal, then the
inference literal, then neither): the train output keeps exactly the
rows classified `train`, the inference output exactly the rows
classified `inference`; being a function, `classify` assigns each row
exactly one class, so the outputs are disjoint, and a non-discarded
row is classified `train` iff its status equals the train literal. -/
theorem split_priority_classification (sp : SplitSpec) (t : Table)
    (st : List Val)
    (hst : alookup t sp.status_column = some st)
    (hrect : ∀ p ∈ t, p.2.length = st.length)
    (hne : sp.train_status ≠ sp.inference_status) :
    (splitByStatus (some sp) t).1
        = tableFilter (st.map (fun v => classify sp v == RowClass.train)) t
    ∧ (splitByStatus (some sp) t).2
        = tableFilter (st.map (fun v => classify sp v == RowClass.inference)) t
    ∧ (∀ v, ¬(classify sp v = RowClass.train ∧ classify sp v = RowClass.inference))
    ∧ (∀ v, classify sp v ≠ RowClass.discarded →
        (classify sp v = RowClass.train ↔ valEqStr v sp.train_status = true)) := by
  have hmain : ∀ (p : Val → Bool),
      tableFilter
        ((((alookup (if sp.drop_statuses.isEmpty then t
            else tableFilter (st.map (fun v => ! inDropSet sp.drop_statuses v)) t)
            sp.status_column).getD []).map p))
        (if sp.drop_statuses.isEmpty then t
         else tableFilter (st.map (fun v => ! inDropSet sp.drop_statuses v)) t)
      = tableFilter
          (st.map (fun v => ! inDropSet sp.drop_statuses v && p v)) t := by
    intro p
    by_cases hdrop : sp.drop_statuses.isEmpty
    · rw [if_pos hdrop, hst]
      have hd0 : sp.drop_statuses = [] := List.isEmpty_iff.mp hdrop
      simp only [Option.getD_some, hd0, inDropSet, List.any_nil,
        Bool.not_false, Bool.true_and]
    · rw [if_neg hdrop, alookup_tableFilter, hst]
      simp only [Option.map_some', Option.getD_some]
      rw [tableFilter_tableFilter]
      unfold tableFilter
      apply List.map_congr_left
      intro q hq
      have hlen : q.2.length = st.length := hrect q hq
      rw [maskFilter_compose (fun v => ! inDropSet sp.drop_statuses v) p st q.2
        hlen.symm]
  refine ⟨?_, ?_, ?_, ?_⟩
  · simp only [splitByStatus, hst]
    simp only [classify_train_mask]
    exact hmain (fun v => valEqStr v sp.train_status)
  · simp only [splitByStatus, hst]
    simp only [classify_inference_mask sp _ hne]
    exact hmain (fun v => valEqStr v sp.inference_status)
  · intro v ⟨h1, h2⟩
    rw [h1] at h2
    exact RowClass.noConfusion h2
  · intro v hnd
    unfold classify at hnd ⊢
    by_cases hd : inDropSet sp.drop_statuses v
    · simp [hd] at hnd
    · by_cases ht : valEqStr v sp.train_status
      · simp [hd, ht]
      · by_cases hi : valEqStr v sp.inference_status <;> simp [hd, ht, hi]


def splitSpecSame : SplitSpec := ⟨"status", "x", "x", []⟩

def splitTableSame : Table := [("status", [Val.str "x"])]

/-- C1 counterexample: when the configured train and inference
literals coincide ("x"), the single row with status "x" appears in
BOTH outputs, so the outputs are not disjoint and the row is not
classified by exactly one rule, refuting the claim as stated for every
configuration. -/
theorem split_disjoint_counterexample :
    (splitByStatus (some splitSpecSame) splitTableSame).1 = splitTableSame
    ∧ (splitByStatus (some splitSpecSame) splitTableSame).2 = splitTableSame
    ∧ splitTableSame ≠ emptyLike splitTableSame := by decide

def splitSpec1 : SplitSpec := ⟨"status", "finished", "upcoming", ["cancelled"]⟩

def splitStatus1 : List Val :=
  [Val.str "finished", Val.str "upcoming", Val.str "cancelled", Val.str "postponed"]

def splitTable1 : Table :=
  [("status", splitStatus1), ("pts", [Val.num 1, Val.num 2, Val.num 3, Val.num 4])]

/-- C1 witness: a four-row table with one status of each kind under a
spec with distinct literals and the discard set {"cancelled"}. -/
theorem split_priority_classification_witness :
    (splitByStatus (some splitSpec1) splitTable1).1
        = tableFilter (splitStatus1.map
            (fun v => classify splitSpec1 v == RowClass.train)) splitTable1
    ∧ (splitByStatus (some splitSpec1) splitTable1).2
        = tableFilter (splitStatus1.map
            (fun v => classify splitSpec1 v == RowClass.inference)) splitTable1 := by
  have h := split_priority_classification splitSpec1 splitTable1 splitStatus1
    (by decide) (by decide) (by decide)
  exact ⟨h.1, h.2.1⟩

/-- C5: with no split spec configured the whole table becomes the
train output and the inference output is empty; with a split spec
whose status column is absent from the table, the split fails closed:
both outputs are the zero-row table (`emptyLike`, whose every column
is empty). -/
theorem split_absent_column_fails_closed (sp : SplitSpec) (t : Table) :
    splitByStatus none t = (t, emptyLike t)
    ∧ (∀ p ∈ emptyLike t, p.2 = ([] : List Val))
    ∧ (alookup t sp.status_column = none →
        splitByStatus (some sp) t = (emptyLike t, emptyLike t)) := by
  refine ⟨rfl, ?_, ?_⟩
  · intro p hp
    rcases List.mem_map.mp hp with ⟨q, _, rfl⟩
    rfl
  · intro h
    simp only [splitByStatus, h]

def splitSpec0 : SplitSpec := ⟨"status", "finished", "upcoming", []⟩

def noStatusTable : Table := [("x", [Val.num 1])]

/-- C5 witness: a table without the configured status column yields
two empty outputs. -/
theorem split_absent_column_fails_closed_witness :
    splitByStatus (some splitSpec0) noStatusTable
      = (emptyLike noStatusTable, emptyLike noStatusTable) :=
  (split_absent_column_fails_closed splitSpec0 noStatusTable).2.2 (by decide)
theorem alookup_mem {l : List (String × α)} {k : String} {v : α}
    (h : alookup l k = some v) : (k, v) ∈ l := by
  induction l with
  | nil => simp [alookup] at h
  | cons p ps ih =>
    by_cases h1 : p.1 = k
    · simp only [alookup, if_pos h1, Option.some.injEq] at h
      obtain ⟨a, b⟩ := p
      simp only at h1 h
      rw [List.mem_cons]
      left
      rw [h1, h]
    · simp only [alookup, if_neg h1] at h
      exact List.mem_cons_of_mem _ (ih h)

theorem alookup_isSome_of_mem {l : List (String × α)} {k : String} {v : α}
    (h : (k, v) ∈ l) : (alookup l k).isSome = true := by
  induction l with
  | nil => simp at h
  | cons p ps ih =>
    rcases List.mem_cons.mp h with h1 | h1
    · rw [← h1]
      simp [alookup]
    · by_cases h2 : p.1 = k
      · simp [alookup, h2]
      · simp only [alookup, if_neg h2]
        exact ih h1

theorem hasCol_of_mem {t : Table} {c : String × List Val} (h : c ∈ t) :
    hasCol t c.1 = true := by
  unfold hasCol
  obtain ⟨k, v⟩ := c
  exact alookup_isSome_of_mem h

/-- C7 (amended): applying the Column Mapper twice with the same spec
equals applying it once, provided no new name of the mapping is itself
an old name of the mapping (then no post-rename label matches a
mapping key, so the second pass renames nothing). -/
theorem column_mapping_idempotent (mapping : List (String × String))
    (t : Table)
    (hdisj : ∀ p ∈ mapping, ∀ q ∈ mapping, p.2 ≠ q.1) :
    applyColumnMapping mapping (applyColumnMapping mapping t)
      = applyColumnMapping mapping t := by
  set t1 := applyColumnMapping mapping t with ht1
  have hnone : ∀ c ∈ t1,
      alookup (mapping.filter (fun p => hasCol t1 p.1)) c.1 = none := by
    intro c hc
    apply alookup_eq_none
    intro p hp
    have hpm : p ∈ mapping := (List.mem_filter.mp hp).1
    rw [ht1] at hc
    unfold applyColumnMapping at hc
    rcases List.mem_map.mp hc with ⟨col, hcol, heq⟩
    cases hrd : alookup (mapping.filter (fun p => hasCol t p.1)) col.1 with
    | some nn =>
      rw [hrd] at heq
      have hmem : (col.1, nn) ∈ mapping :=
        (List.mem_filter.mp (alookup_mem hrd)).1
      have hne := hdisj (col.1, nn) hmem p hpm
      simp only at hne
      rw [← heq]
      simp only
      exact fun hcontra => hne hcontra.symm
    | none =>
      rw [hrd] at heq
      intro hpc
      have hhc : hasCol t col.1 = true := hasCol_of_mem hcol
      have hkey : p.1 = col.1 := by rw [hpc, ← heq]
      have hpf : p ∈ mapping.filter (fun p => hasCol t p.1) := by
        refine List.mem_filter.mpr ⟨hpm, ?_⟩
        rw [hkey, hhc]
      have hsome := alookup_isSome_of_mem (l := mapping.filter (fun p => hasCol t p.1))
        (k := p.1) (v := p.2) hpf
      rw [hkey, hrd] at hsome
      simp at hsome
  have hid : applyColumnMapping mapping t1 = t1.map (fun col => col) := by
    unfold applyColumnMapping
    apply List.map_congr_left
    intro col hcol
    rw [hnone col hcol]
  rw [hid]
  exact List.map_id' t1

def chainMapping : List (String × String) := [("a", "b"), ("b", "c")]

def chainTable : Table := [("a", [Val.num 1])]

/-- C7 counterexample: with the chained mapping {a→b, b→c} on a table
with column "a", the first application renames a→b and the second
renames that b→c, so applying the mapper twice differs from applying
it once, refuting idempotence for every mapping spec. -/
theorem column_mapping_not_idempotent_chain :
    applyColumnMapping chainMapping (applyColumnMapping chainMapping chainTable)
      ≠ applyColumnMapping chainMapping chainTable := by decide

def renameTable : Table := [("home", [Val.num 1])]

/-- C7 witness: a mapping whose new names are not old names. -/
theorem column_mapping_idempotent_witness :
    applyColumnMapping [("home", "home_points")]
        (applyColumnMapping [("home", "home_points")] renameTable)
      = applyColumnMapping [("home", "home_points")] renameTable :=
  column_mapping_idempotent [("home", "home_points")] renameTable (by decide)
deriving instance DecidableEq for Except

theorem mem_insertPart {p x : String × α} {l : List (String × α)} :
    x ∈ insertPart p l ↔ x = p ∨ x ∈ l := by
  induction l with
  | nil => simp [insertPart]
  | cons q qs ih =>
    unfold insertPart
    by_cases h : p.1 ≤ q.1
    · simp only [if_pos h, List.mem_cons]
    · simp only [if_neg h, List.mem_cons, ih]
      tauto

theorem mem_sortParts {x : String × α} {l : List (String × α)} :
    x ∈ sortParts l ↔ x ∈ l := by
  unfold sortParts
  induction l with
  | nil => simp
  | cons p ps ih =>
    simp only [List.foldr_cons, mem_insertPart, List.mem_cons, ih]

/-- C6 (amended): when none of the requested final-column names is
present, the feature-stage Column Selector (`_select_final_columns`)
returns the input table unchanged; the clean-stage column selection
(`clean.process_tournament`, step 5) does NOT return the input
unchanged — it skips the partition (no output is written). -/
theorem selector_degradation (cfg : FeaturesCfg) (b : Bool) (t : Table)
    (ccfg : CleanCfg) (u : Table)
    (hnone : ∀ c ∈ (cfg.meta_columns ++ cfg.final_columns ++
        (if b then
           match cfg.target with
           | some sp => [sp.name]
           | none => []
         else [])), hasCol t c = false)
    (hmap : ccfg.column_mapping = none)
    (hreq : ccfg.required_columns = [])
    (hdt : ccfg.dtype_mapping = none)
    (hdna : ccfg.drop_na_columns = [])
    (hsel : ccfg.select_columns.isEmpty = false)
    (hselnone : ∀ c ∈ ccfg.select_columns, hasCol u c = false)
    (hne : isEmptyTable u = false) :
    selectFinalColumns cfg b t = t
    ∧ processTournamentClean ccfg (some u) = .ok none := by
  constructor
  · simp only [selectFinalColumns]
    have hfil : (cfg.meta_columns ++ cfg.final_columns ++
        (if b then
           match cfg.target with
           | some sp => [sp.name]
           | none => []
         else [])).filter (fun c => hasCol t c) = [] := by
      rw [List.filter_eq_nil_iff]
      intro c hc
      simp [hnone c hc]
    rw [hfil]
    rfl
  · have hfil2 : ccfg.select_columns.filter (fun c => hasCol u c) = [] := by
      rw [List.filter_eq_nil_iff]
      intro c hc
      simp [hselnone c hc]
    simp [processTournamentClean, hne, hmap, hreq, hdt, hdna, hsel, hfil2]

def selCleanCfg : CleanCfg := ⟨none, [], none, [], ["y"]⟩

def selCleanTable : Table := [("x", [Val.num 1])]

/-- C6 counterexample: at the clean stage, a table with column "x" and
the selection list ["y"] makes the partition be skipped (`ok none`),
not returned unchanged, refuting "rather than ... aborting the
partition" for the clean-stage selector the claim also cites. -/
theorem selector_empty_aborts_clean_partition :
    processTournamentClean selCleanCfg (some selCleanTable) = .ok none
    ∧ (Except.ok (some selCleanTable) : Except String (Option Table))
        ≠ .ok none := by decide

def selFeatCfg : FeaturesCfg := ⟨none, none, none, ["id"], ["f1"], none⟩

def selFeatTable : Table := [("other", [Val.num 1])]

/-- C6 witness: a concrete table for each of the two stages. -/
theorem selector_degradation_witness :
    selectFinalColumns selFeatCfg true selFeatTable = selFeatTable
    ∧ processTournamentClean selCleanCfg (some selCleanTable) = .ok none :=
  selector_degradation selFeatCfg true selFeatTable selCleanCfg selCleanTable
    (by decide) rfl rfl rfl rfl (by decide) (by decide) (by decide)

/-- C8: the clean orchestrator aborts with an error exactly when the
raw root is missing; when every partition's processing yields a result
(as the enumerated failure kinds do — a missing input file, an empty
table, and a failed required-column validation each yield the skip
result `ok none`), the run output is the per-partition map over the
name-sorted partitions, so one partition's failure affects no other
entry; the feature-stage orchestrator likewise aborts only on a
missing interim root and is a per-partition map unconditionally. -/
theorem orchestrator_isolates_partitions (cfg : CleanCfg) (fcfg : FeaturesCfg) :
    runClean cfg none = .error "raw root not found"
    ∧ (∀ ps : List (String × Option Table),
        (∀ p ∈ ps, ∃ r, processTournamentClean cfg p.2 = .ok r) →
        runClean cfg (some ps)
          = .ok ((sortParts ps).map (fun p => (p.1, cleanOutcome cfg p.2))))
    ∧ processTournamentClean cfg none = .ok none
    ∧ (∀ df, isEmptyTable df = true →
        processTournamentClean cfg (some df) = .ok none)
    ∧ (∀ df, isEmptyTable df = false →
        cfg.required_columns.isEmpty = false →
        validateRequiredColumns
          (match cfg.column_mapping with
           | some m => if m.isEmpty then df else applyColumnMapping m df
           | none => df) cfg.required_columns = false →
        processTournamentClean cfg (some df) = .ok none)
    ∧ runFeatures fcfg none = .error "interim root not found"
    ∧ (∀ ps, runFeatures fcfg (some ps)
        = .ok ((sortParts ps).map (fun p => (p.1, featuresPartition fcfg p.2))))
    ∧ featuresPartition fcfg none = none
    ∧ (∀ df, isEmptyTable df = true → featuresPartition fcfg (some df) = none) := by
  refine ⟨rfl, ?_, rfl, ?_, ?_, rfl, fun ps => rfl, rfl, ?_⟩
  · intro ps h
    simp only [runClean]
    exact runPartsClean_ok cfg (sortParts ps) (fun p hp => h p (mem_sortParts.mp hp))
  · intro df h
    simp [processTournamentClean, h]
  · intro df h hreq hval
    unfold processTournamentClean
    simp only [h, Bool.false_eq_true, if_false]
    rw [if_pos]
    constructor
    · simp [hreq]
    · exact hval
  · intro df h
    simp [featuresPartition, h]

def orchCleanCfg : CleanCfg := ⟨none, [], none, [], []⟩

def orchReqCfg : CleanCfg := ⟨none, ["req"], none, [], []⟩

def orchFeatCfg : FeaturesCfg := ⟨none, none, none, [], [], none⟩

def orchTable : Table := [("x", [Val.num 1])]

/-- C8 witness: three partitions where the second has a missing input
file — the run still succeeds and maps every partition — and a
partition skipped by required-column validation. -/
theorem orchestrator_isolates_partitions_witness :
    runClean orchCleanCfg
        (some [("a", some orchTable), ("b", none), ("c", some orchTable)])
      = .ok ((sortParts [("a", some orchTable), ("b", none), ("c", some orchTable)]).map
          (fun p => (p.1, cleanOutcome orchCleanCfg p.2)))
    ∧ processTournamentClean orchReqCfg (some orchTable) = .ok none := by
  constructor
  · apply (orchestrator_isolates_partitions orchCleanCfg orchFeatCfg).2.1
    intro p hp
    simp only [List.mem_cons, List.not_mem_nil, or_false] at hp
    rcases hp with rfl | rfl | rfl
    · exact ⟨some orchTable, by decide⟩
    · exact ⟨none, by decide⟩
    · exact ⟨some orchTable, by decide⟩
  · exact (orchestrator_isolates_partitions orchReqCfg orchFeatCfg).2.2.2.2.1
      orchTable (by decide) (by decide) (by decide)
end SportsForecast
